import Mathlib

/-!
Verification of the video-generator pipeline (storage layer, KIE remote-task
client, video stage, merge stage, status records) against its natural-language
specification.  Python source files are shallowly embedded as executable Lean
definitions; filesystem and HTTP effects are made explicit as state passing.
-/

/-! ## Storage: job-id sanitization (src/storage.py, StorageManager.generate_job_id)

Python: safe_title = "".join(c if c.isalnum() or c in "_-" else "_" for c in title);
        safe_title.strip("_")[:50].
Characters are modelled with Lean chars; Char.isAlphanum plays the role of
Python str.isalnum (both claims and code use the same alphanumeric predicate).
-/

/-- One character of the sanitization comprehension: keep alphanumerics,
underscore and hyphen, replace everything else by an underscore. -/
def sanitizeChar (c : Char) : Char :=
  if c.isAlphanum || c = '_' || c = '-' then c else '_'

/-- Remove the maximal trailing run of underscores (the right half of
Python str.strip("_")). -/
def dropTrailingUnd : List Char → List Char
  | [] => []
  | c :: cs =>
    let r := dropTrailingUnd cs
    if r.isEmpty then (if c = '_' then [] else [c]) else c :: r

/-- Python safe_title.strip("_"): remove leading and trailing underscores. -/
def stripUnd (l : List Char) : List Char :=
  dropTrailingUnd (l.dropWhile (fun c => c = '_'))

/-- Core of generate_job_id on the truthy-title branch: sanitize each
character, strip underscores at both ends, truncate to 50 characters. -/
def generateJobIdCore (title : List Char) : List Char :=
  (stripUnd (title.map sanitizeChar)).take 50

/-- StorageManager.generate_job_id.  Python tests the title for truthiness:
a non-empty title takes the deterministic sanitization branch; an empty (or
absent) title falls to the non-deterministic branch returning a fresh
timestamp-and-uuid identifier, supplied here as the explicit argument
entropy (the value of datetime.now().strftime(...) + uuid4 at call time). -/
def generate_job_id (entropy : String) (title : String) : String :=
  if title = "" then entropy else (generateJobIdCore title.toList).asString

/-- Modelled from the spec's words (claims C5/C10): the identifier is the
title with every character that is not alphanumeric, underscore or hyphen
replaced by an underscore, stripped of leading and trailing underscores
(stated here via reverse and dropWhile), and truncated to 50 characters. -/
def specJobId (title : String) : String :=
  List.asString <| (((((title.toList.map sanitizeChar).dropWhile
      (fun c => c = '_')).reverse.dropWhile (fun c => c = '_')).reverse).take 50)

/-! ## Storage: paths (src/storage.py)

Paths are lists of path segments.  Joining with an empty segment is the
identity, matching pathlib (Path("jobs") / "" = Path("jobs")). -/

/-- A filesystem path, as a list of segments below the storage base dir. -/
abbrev FPath := List String

/-- Join one segment onto a path; pathlib drops empty segments. -/
def pathAppend (p : FPath) (seg : String) : FPath :=
  if seg = "" then p else p ++ [seg]

/-- The jobs root directory self.jobs_dir (relative to base_dir). -/
def jobsRoot : FPath := ["jobs"]

/-- Directory membership model for the mkdir side effect: the set of
directories that exist, as a list of paths. -/
abbrev DirFS := List FPath

/-- Path.mkdir(parents=True, exist_ok=True): ensure the directory exists. -/
def mkdirP (fs : DirFS) (p : FPath) : DirFS :=
  if p ∈ fs then fs else p :: fs

/-- StorageManager.get_job_dir: compute jobs/<job_id>[/<stage>], create it
as a side effect, and return it. -/
def get_job_dir (fs : DirFS) (jobId : String) (stage : Option String) :
    DirFS × FPath :=
  let jobRoot := pathAppend jobsRoot jobId
  let dir := match stage with
    | some s => pathAppend jobRoot s
    | none => jobRoot
  (mkdirP fs dir, dir)

/-- StorageManager.job_exists: checks that the prompts stage directory of the
job exists, after get_job_dir has just created it. -/
def job_exists (fs : DirFS) (jobId : String) : DirFS × Bool :=
  let r := get_job_dir fs jobId (some "prompts")
  (r.1, decide (r.2 ∈ r.1))


/-! ## JSON values (KIE API responses; src/services/kie_client.py)

A minimal model of the Python objects produced by response.json():
dictionaries, lists, strings, integers, booleans, null.  Numeric bodies in
the claims are integers (provider error codes), so numbers are Int. -/

/-- A JSON value as handled by the KIE client. -/
inductive Json where
  | null : Json
  | bool (b : Bool) : Json
  | num (n : Int) : Json
  | str (s : String) : Json
  | arr (l : List Json) : Json
  | obj (m : List (String × Json)) : Json

/-- Python truthiness of a JSON value: None, False, 0, "", [], {} are falsy. -/
def pyTruthy : Json → Bool
  | .null => false
  | .bool b => b
  | .num n => !(n == 0)
  | .str s => !(s == "")
  | .arr l => !l.isEmpty
  | .obj m => !m.isEmpty

/-- Python dict lookup d.get(k) on the association list of an object. -/
def dictGet (m : List (String × Json)) (k : String) : Option Json :=
  match m with
  | [] => none
  | kv :: rest => if kv.1 = k then some kv.2 else dictGet rest k

/-- KieClient._safe_get: walk a dot-separated path through nested dicts,
returning none as soon as the current value is not a dict holding the key. -/
def safe_get (j : Json) : List String → Option Json
  | [] => some j
  | k :: ks =>
    match j with
    | .obj m =>
      match dictGet m k with
      | some v => safe_get v ks
      | none => none
    | _ => none

/-- Python x or y on optional lookup results: keep x only when it is
present and truthy, otherwise fall through to y. -/
def pyOr (a b : Option Json) : Option Json :=
  match a with
  | some v => if pyTruthy v then some v else b
  | none => b

/-! ## KieClient.create_task: handling of an HTTP-success response body

The transport part (httpx post, raise_for_status) is outside the model:
create_task_body receives the decoded body of a response whose HTTP status
was a success, exactly the state of the Python code after response.json(). -/

/-- Errors create_task can raise after a transport-successful response:
the embedded KIE error format (RuntimeError "KIE API error"), or no task id
found at any known location (RuntimeError "No taskId in API response"). -/
inductive CreateErr where
  | apiError : CreateErr
  | noTaskId : CreateErr
deriving DecidableEq

/-- KieClient.create_task, body handling (lines 90-109): raise when the body
is a dict whose code field equals 500; otherwise probe data.taskId, taskId,
data.id in order with Python or (falsy values fall through), and raise when
the final candidate is absent or falsy, else return the task id value
(Python applies str() to it; the value itself is returned here). -/
def create_task_body (data : Json) : Except CreateErr Json :=
  if (match data with
      | .obj m =>
        match dictGet m "code" with
        | some (.num n) => n == 500
        | _ => false
      | _ => false) then
    .error .apiError
  else
    let tid := pyOr (safe_get data ["data", "taskId"])
      (pyOr (safe_get data ["taskId"]) (safe_get data ["data", "id"]))
    match tid with
    | some v => if pyTruthy v then .ok v else .error .noTaskId
    | none => .error .noTaskId

/-- Modelled from the spec's words (claim C2): a response body encodes an
application-level error code when its top-level code field is a number
different from the success code 200. -/
def encodesErrorCode (data : Json) : Prop :=
  ∃ n : Int,
    (match data with | .obj m => dictGet m "code" | _ => none) = some (.num n) ∧
    n ≠ 200


/-! ## KieClient.extract_result_url (lines 166-189)

json.loads is the Python standard library and is passed in as a function
loads : String -> Option Json, with none standing for a raised
ValueError/TypeError (parse failure).  Indexing urls[0] on a string yields
its first character, on a list its first element, and raises TypeError on
other values; all three behaviors are mirrored. -/

/-- Errors extract_result_url can raise: missing or falsy data.resultJson,
json.loads failure (also on a non-string argument), parsed value without a
.get method (not a dict), missing or falsy resultUrls, and the TypeError of
indexing a non-subscriptable truthy value. -/
inductive ExtractErr where
  | missingResultJson : ExtractErr
  | loadsFailed : ExtractErr
  | notADict : ExtractErr
  | missingUrls : ExtractErr
  | typeErr : ExtractErr
deriving DecidableEq

/-- KieClient.extract_result_url: read data.resultJson, raise when absent or
falsy, json.loads it, take parsed.get("resultUrls") or [], raise when falsy,
and return urls[0]. -/
def extract_result_url (loads : String → Option Json) (detail : Json) :
    Except ExtractErr Json :=
  match safe_get detail ["data", "resultJson"] with
  | none => .error .missingResultJson
  | some raw =>
    if pyTruthy raw = false then .error .missingResultJson
    else
      match raw with
      | .str s =>
        match loads s with
        | none => .error .loadsFailed
        | some parsed =>
          match parsed with
          | .obj m =>
            let urls : Json :=
              match dictGet m "resultUrls" with
              | some u => if pyTruthy u then u else .arr []
              | none => .arr []
            if pyTruthy urls = false then .error .missingUrls
            else
              match urls with
              | .arr (u :: _) => .ok u
              | .str s' =>
                match s'.toList with
                | c :: _ => .ok (.str (String.mk [c]))
                | [] => .error .typeErr
              | _ => .error .typeErr
          | _ => .error .notADict
      | _ => .error .loadsFailed

/-- The condition of the first raise in extract_result_url: data.resultJson
is absent or Python-falsy (empty). -/
def rawMissingOrEmpty (detail : Json) : Bool :=
  match safe_get detail ["data", "resultJson"] with
  | none => true
  | some v => !pyTruthy v

/-- The value found at resultUrls after parsing data.resultJson, when the
field is a string that loads to a dict holding the key. -/
def resultUrlsVal (loads : String → Option Json) (detail : Json) :
    Option Json :=
  match safe_get detail ["data", "resultJson"] with
  | some (.str s) =>
    match loads s with
    | some (.obj m) => dictGet m "resultUrls"
    | _ => none
  | _ => none

/-- The resultUrls list parsed from data.resultJson, when it is a list. -/
def resultUrlsList (loads : String → Option Json) (detail : Json) :
    Option (List Json) :=
  match resultUrlsVal loads detail with
  | some (.arr l) => some l
  | _ => none

/-! ## KieClient.poll_task (lines 111-159)

The poll loop is modelled against a stub provider that never reaches a
terminal state (data.state is neither success nor fail on any poll), the
configuration of the spec sentence about termination.  Time is a fake clock
advanced only by the sleeps; elapsed is the sum of all previous sleeps.
Delays are exact rationals (initial_delay 2.0, factor 1.3, cap 15.0,
timeout 1200.0 seconds); the jitter stream j gives random.uniform(0, 0.5)
of each iteration.  Fuel bounds the number of iterations the model runs;
none means the fuel ran out before the loop raised. -/

/-- Outcome of the polled loop against the never-terminal provider: the only
exit is the TimeoutError raised once elapsed exceeds the ceiling. -/
inductive PollOutcome where
  | timeout : PollOutcome
deriving DecidableEq

/-- Trajectory of the mutable variable delay in poll_task: starts at
initial_delay 2.0 and is updated with min(max_delay, delay * 1.3) after
each sleep. -/
def nominalDelay : ℕ → ℚ
  | 0 => 2
  | k + 1 => min 15 (nominalDelay k * (13 / 10))

/-- The actual sleep of iteration k: delay + random.uniform(0, 0.5). -/
def sleepOf (j : ℕ → ℚ) (k : ℕ) : ℚ := nominalDelay k + j k

/-- KieClient.poll_task against the never-terminal provider stub: each
iteration polls (state is non-terminal), raises TimeoutError when elapsed
exceeds 1200 s, otherwise sleeps delay + jitter and grows the delay.
k is the iteration index (for the jitter stream and the delay variable,
whose trajectory is nominalDelay); elapsed is time since start. -/
def poll_task_stub (j : ℕ → ℚ) : ℕ → ℕ → ℚ → Option PollOutcome
  | 0, _, _ => none
  | fuel + 1, k, elapsed =>
    if 1200 < elapsed then some .timeout
    else poll_task_stub j fuel (k + 1) (elapsed + sleepOf j k)


/-! ## Video stage (src/services/video_service.py, VideoService)

generate_videos_from_prompts is modelled on its success path: every remote
generation succeeds (create_task, poll_task, download and the image upload
of image-to-video are collapsed into a single submission event), because the
claims about this loop concern which submissions happen and in what order
relative to the artifacts on disk.  Files on disk are a list of paths; the
per-iteration update_job_status write touches only the metadata record and
no artifact path, and is modelled separately with the status layer. -/

/-- The set of files that exist, as a list of paths. -/
abbrev FileFS := List FPath

/-- Record a newly written file. -/
def insertFile (fs : FileFS) (p : FPath) : FileFS :=
  if p ∈ fs then fs else p :: fs

/-- One shot descriptor from the prompts JSON: shot_number, prompt, duration
and subject, the fields the loop reads. -/
structure Shot where
  shot_number : ℕ
  prompt : String
  duration : ℕ
  subject : String
deriving DecidableEq

/-- safe_subject in save_video/get_video_path and in the skip check of
generate_videos_from_prompts: sanitize, truncate to 50 (no stripping). -/
def safe_subject (s : String) : String :=
  ((s.toList.map sanitizeChar).take 50).asString

/-- Python f-string 02d formatting of the shot number. -/
def pad2 (n : ℕ) : String :=
  if n < 10 then "0" ++ toString n else toString n

/-- The per-shot artifact file name NN_subject.mp4, shared by save_video and
the skip check. -/
def shot_filename (n : ℕ) (subject : String) : String :=
  pad2 n ++ "_" ++ safe_subject subject ++ ".mp4"

/-- The path the skip check of generate_videos_from_prompts tests (lines
245-248): get_job_dir(job_id) with no stage, i.e. the job ROOT directory,
joined with the shot file name. -/
def expected_skip_path (jobId : String) (n : ℕ) (subject : String) : FPath :=
  pathAppend (pathAppend jobsRoot jobId) (shot_filename n subject)

/-- The destination StorageManager.save_video writes and returns:
get_job_dir(job_id, stage="videos") joined with the same file name. -/
def save_video_path (jobId : String) (n : ℕ) (subject : String) : FPath :=
  pathAppend (pathAppend (pathAppend jobsRoot jobId) "videos")
    (shot_filename n subject)

/-- The frame path extract_last_frame writes: get_frame_path with the .jpg
suffix replaced by .png (frames/shot_NN_last.png). -/
def frame_path (jobId : String) (n : ℕ) : FPath :=
  pathAppend (pathAppend (pathAppend jobsRoot jobId) "frames")
    ("shot_" ++ pad2 n ++ "_last.png")

/-- Events of one run of generate_videos_from_prompts, in program order:
evSkip n p       - the skip check found p and returned the cached response;
evExtract src o  - extract_last_frame read src and wrote the frame o;
evSubmitText n   - create_task was called for a text-to-video task of shot n;
evSubmitImage n pr seed - create_task was called for an image-to-video task
                   of shot n seeded with the frame file seed (uploaded to an
                   HTTPS URL by ImageUploader on the way into the payload);
evSave n p       - save_video stored shot n at p. -/
inductive VEv where
  | evSkip (n : ℕ) (p : FPath) : VEv
  | evExtract (src out : FPath) : VEv
  | evSubmitText (n : ℕ) (prompt : String) : VEv
  | evSubmitImage (n : ℕ) (prompt : String) (seed : FPath) : VEv
  | evSave (n : ℕ) (p : FPath) : VEv
deriving DecidableEq

/-- VideoService.generate_videos_from_prompts (lines 236-308), success path.
State: the files on disk and previous_video_path.  For each shot: compute
the expected path under the job root and skip when it exists; otherwise
image-to-video when previous_video_path is set and shot_number > 1 (extract
the last frame of the previous video first - extract_last_frame raises
FileNotFoundError when that file is gone), else text-to-video.  Returns the
final filesystem, the event trace and the per-shot video paths. -/
def gen_videos (jobId : String) :
    List Shot → FileFS → Option FPath →
    Except String (FileFS × List VEv × List FPath)
  | [], fs, _ => .ok (fs, [], [])
  | shot :: rest, fs, prev =>
    let ep := expected_skip_path jobId shot.shot_number shot.subject
    if ep ∈ fs then
      match gen_videos jobId rest fs (some ep) with
      | .ok (fs', tr, res) =>
        .ok (fs', .evSkip shot.shot_number ep :: tr, ep :: res)
      | .error e => .error e
    else
      match prev with
      | some p =>
        if 1 < shot.shot_number then
          if p ∈ fs then
            let fp := frame_path jobId (shot.shot_number - 1)
            let sp := save_video_path jobId shot.shot_number shot.subject
            let fs₂ := insertFile (insertFile fs fp) sp
            match gen_videos jobId rest fs₂ (some sp) with
            | .ok (fs', tr, res) =>
              .ok (fs',
                .evExtract p fp ::
                  .evSubmitImage shot.shot_number shot.prompt fp ::
                    .evSave shot.shot_number sp :: tr,
                sp :: res)
            | .error e => .error e
          else .error "Video not found"
        else
          let sp := save_video_path jobId shot.shot_number shot.subject
          match gen_videos jobId rest (insertFile fs sp) (some sp) with
          | .ok (fs', tr, res) =>
            .ok (fs',
              .evSubmitText shot.shot_number shot.prompt ::
                .evSave shot.shot_number sp :: tr,
              sp :: res)
          | .error e => .error e
      | none =>
        let sp := save_video_path jobId shot.shot_number shot.subject
        match gen_videos jobId rest (insertFile fs sp) (some sp) with
        | .ok (fs', tr, res) =>
          .ok (fs',
            .evSubmitText shot.shot_number shot.prompt ::
              .evSave shot.shot_number sp :: tr,
            sp :: res)
        | .error e => .error e

/-- Count of remote submissions (create_task calls) in a trace. -/
def countSubmits (tr : List VEv) : ℕ :=
  tr.countP (fun e =>
    match e with
    | .evSubmitText _ _ => true
    | .evSubmitImage _ _ _ => true
    | _ => false)

/-- Remote submissions of a whole run result (0 when the run raised before
any useful accounting; the demonstrations below only apply it to ok runs). -/
def runSubmitCount (r : Except String (FileFS × List VEv × List FPath)) : ℕ :=
  match r with
  | .ok (_, tr, _) => countSubmits tr
  | .error _ => 0

/-- Final filesystem of a run (unchanged input on error). -/
def runFS (fs : FileFS) (r : Except String (FileFS × List VEv × List FPath)) :
    FileFS :=
  match r with
  | .ok (fs', _, _) => fs'
  | .error _ => fs

/-- The two-shot prompts list of the demonstrations: shots 1 and 2, as in a
prompts JSON with shot_number running 1.. in list order. -/
def demoShots : List Shot :=
  [⟨1, "p1", 10, "s"⟩, ⟨2, "p2", 10, "s"⟩]


/-! ## Merge stage (src/services/merge_service.py, MergeService)

The external media tool (ffmpeg) is a black box invoked through
subprocess.run(check=True) on a command whose last path argument is the
output file.  Its effect on that output file is a parameter of the run:
a successful invocation writes a complete file; a failed invocation raises
CalledProcessError and either wrote nothing or left a partially written
output, since ffmpeg streams into the named output as it encodes.  File
contents matter here, so the filesystem maps paths to a completeness
state. -/

/-- Content state of an artifact file on disk. -/
inductive FState where
  | complete : FState
  | truncatedFile : FState
deriving DecidableEq

/-- Filesystem with contents: paths paired with their content state. -/
abbrev MFS := List (FPath × FState)

/-- Lookup the content state of a file; none when the file does not exist. -/
def lookupFile (fs : MFS) (p : FPath) : Option FState :=
  match fs with
  | [] => none
  | e :: rest => if e.1 = p then some e.2 else lookupFile rest p

/-- os.path.exists: a file of any content state exists. -/
def pyExists (fs : MFS) (p : FPath) : Bool :=
  (lookupFile fs p).isSome

/-- Write or overwrite a file with the given content state. -/
def setFile (fs : MFS) (p : FPath) (st : FState) : MFS :=
  match fs with
  | [] => [(p, st)]
  | e :: rest => if e.1 = p then (p, st) :: rest else e :: setFile rest p st

/-- Behavior of one ffmpeg invocation, a parameter of the model. -/
inductive ToolRun where
  | success : ToolRun
  | failsHalfway : ToolRun
  | failsClean : ToolRun
deriving DecidableEq

/-- Run ffmpeg with the given output path argument: on success the output is
written completely and the call returns; on failure subprocess.run raises
(the Bool result is false) and the output file is either partially written
or untouched. -/
def run_ffmpeg (t : ToolRun) (out : FPath) (fs : MFS) : MFS × Bool :=
  match t with
  | .success => (setFile fs out .complete, true)
  | .failsHalfway => (setFile fs out .truncatedFile, false)
  | .failsClean => (fs, false)

/-- StorageManager.get_concat_video_path: jobs/<id>/videos/concatenated.mp4. -/
def concat_video_path (jobId : String) : FPath :=
  pathAppend (pathAppend (pathAppend jobsRoot jobId) "videos")
    "concatenated.mp4"

/-- StorageManager.get_final_video_path: jobs/<id>/final/final.mp4. -/
def final_video_path (jobId : String) : FPath :=
  pathAppend (pathAppend (pathAppend jobsRoot jobId) "final") "final.mp4"

/-- StorageManager.get_audio_path: jobs/<id>/audio/voiceover.mp3. -/
def get_audio_path (jobId : String) : FPath :=
  pathAppend (pathAppend (pathAppend jobsRoot jobId) "audio") "voiceover.mp3"

/-- Glob test for *.mp4: the file name ends in .mp4. -/
def isMp4Name (f : String) : Bool :=
  let l := f.toList
  decide (4 ≤ l.length) && decide (l.drop (l.length - 4) = ['.', 'm', 'p', '4'])

/-- StorageManager.list_videos_for_job: the .mp4 files in the videos stage
directory of the job, excluding concatenated.mp4 and final.mp4 (sorting is
irrelevant to the claims settled here). -/
def list_videos_for_job (fs : MFS) (jobId : String) : List FPath :=
  (fs.filter (fun e =>
    match e.1 with
    | [a, b, c, f] =>
      a = "jobs" && b = jobId && c = "videos" && isMp4Name f &&
        !(f = "concatenated.mp4") && !(f = "final.mp4")
    | _ => false)).map (fun e => e.1)

/-- Errors of the merge stage. -/
inductive MergeErr where
  | noVideos : MergeErr
  | toolFailed : MergeErr
  | missingVideo : MergeErr
  | missingAudio : MergeErr
deriving DecidableEq

/-- MergeService.concatenate_videos (lines 25-82): write the ffmpeg concat
list to a temp file (elided: it is removed in the finally block and never
holds artifact content), then run ffmpeg with output_path - the caller's
canonical path - as the output argument, raising on non-zero exit. -/
def concatenate_videos (t : ToolRun) (output_path : FPath) (fs : MFS) :
    MFS × Except MergeErr FPath :=
  let r := run_ffmpeg t output_path fs
  if r.2 then (r.1, .ok output_path) else (r.1, .error .toolFailed)

/-- MergeService.combine_videos (lines 137-173): skip when the concatenated
video already exists, raise when the job has no shot videos, otherwise
concatenate straight to get_concat_video_path. -/
def combine_videos (t : ToolRun) (jobId : String) (fs : MFS) :
    MFS × Except MergeErr FPath :=
  let output_path := concat_video_path jobId
  if pyExists fs output_path then (fs, .ok output_path)
  else if (list_videos_for_job fs jobId).isEmpty then (fs, .error .noVideos)
  else concatenate_videos t output_path fs

/-- MergeService.merge_audio_video (lines 84-135): run ffmpeg mapping the
video and audio inputs with output_path as the output argument, raising on
non-zero exit. -/
def merge_audio_video (t : ToolRun) (_video_path _audio_path : FPath)
    (output_path : FPath) (fs : MFS) : MFS × Except MergeErr FPath :=
  let r := run_ffmpeg t output_path fs
  if r.2 then (r.1, .ok output_path) else (r.1, .error .toolFailed)

/-- MergeService.merge_final_video (lines 175-232): skip when final.mp4
already exists, check the concatenated video and the voiceover exist, then
mux straight to get_final_video_path (the closing update_job_status call is
part of the status layer modelled below). -/
def merge_final_video (t : ToolRun) (jobId : String) (fs : MFS) :
    MFS × Except MergeErr FPath :=
  let video_path := concat_video_path jobId
  let audio_path := get_audio_path jobId
  let output_path := final_video_path jobId
  if pyExists fs output_path then (fs, .ok output_path)
  else if !pyExists fs video_path then (fs, .error .missingVideo)
  else if !pyExists fs audio_path then (fs, .error .missingAudio)
  else merge_audio_video t video_path audio_path output_path fs

/-! ## Status records (src/storage.py update_job_status; api/main.py)

A status record is the JSON object of metadata.json: an association list of
keys and Json values.  save/load round through json.dump/json.load and are
the identity on this model. -/

/-- A metadata record. -/
abbrev Metadata := List (String × Json)

/-- Python dict assignment d[k] = v: replace in place or append. -/
def dictSet (m : Metadata) (k : String) (v : Json) : Metadata :=
  match m with
  | [] => [(k, v)]
  | e :: rest => if e.1 = k then (k, v) :: rest else e :: dictSet rest k v

/-- Python dict.update(kwargs): assign every pair in order. -/
def dictUpdate (m : Metadata) (kwargs : List (String × Json)) : Metadata :=
  match kwargs with
  | [] => m
  | kv :: rest => dictUpdate (dictSet m kv.1 kv.2) rest

/-- Key presence in a record. -/
def hasKey (m : Metadata) (k : String) : Bool :=
  (dictGet m k).isSome

/-- StorageManager.update_job_status (lines 230-236): load the record, set
status and updated_at (now is the datetime.now().isoformat() of the call),
merge the keyword arguments, save.  No key is ever removed. -/
def update_job_status (now : String) (m : Metadata) (status : String)
    (kwargs : List (String × Json)) : Metadata :=
  dictUpdate (dictSet (dictSet m "status" (.str status)) "updated_at"
    (.str now)) kwargs

/-- One status update performed by the pipeline: the status string and the
keyword arguments of an update_job_status call site. -/
structure StatusUpdate where
  now : String
  status : String
  kwargs : List (String × Json)

/-- Fold a sequence of pipeline status updates over a record. -/
def applyUpdates (m : Metadata) : List StatusUpdate → Metadata
  | [] => m
  | u :: rest => applyUpdates (update_job_status u.now m u.status u.kwargs) rest

/-- The status updates of api/main.py full_pipeline_task for a run that
fails (line 682), followed by those of a resubmitted run of the same job
that succeeds end to end (lines 588, 606, 622, 633, 640, 652, 673). -/
def failThenSucceedUpdates : List StatusUpdate :=
  [⟨"t0", "failed", [("error", .str "Task failed: code=500, msg=timeout")]⟩,
   ⟨"t1", "pending", []⟩,
   ⟨"t2", "processing", [("message", .str "Generating prompts")]⟩,
   ⟨"t3", "processing", [("message", .str "Generating videos")]⟩,
   ⟨"t4", "processing", [("message", .str "Concatenating videos")]⟩,
   ⟨"t5", "processing", [("message", .str "Generating voiceover")]⟩,
   ⟨"t6", "processing", [("message", .str "Merging final video")]⟩,
   ⟨"t7", "completed",
     [("result", .obj [("final_video_path",
        .str "jobs/j/final/final.mp4")])]⟩]

/-! ## Helper lemmas on the sanitization primitives -/

theorem sanitizeChar_allowed (c : Char) :
    (sanitizeChar c).isAlphanum = true ∨ sanitizeChar c = '_' ∨
      sanitizeChar c = '-' := by
  unfold sanitizeChar
  by_cases h : (c.isAlphanum || c = '_' || c = '-') = true
  · rw [if_pos h]
    rcases Bool.or_eq_true_iff.mp h with h' | h'
    · rcases Bool.or_eq_true_iff.mp h' with h'' | h''
      · exact Or.inl h''
      · exact Or.inr (Or.inl (of_decide_eq_true h''))
    · exact Or.inr (Or.inr (of_decide_eq_true h'))
  · rw [if_neg h]
    exact Or.inr (Or.inl rfl)

theorem mem_dropTrailingUnd {c : Char} {l : List Char}
    (h : c ∈ dropTrailingUnd l) : c ∈ l := by
  induction l with
  | nil => simp [dropTrailingUnd] at h
  | cons a l ih =>
    unfold dropTrailingUnd at h
    by_cases hr : (dropTrailingUnd l).isEmpty
    · rw [if_pos hr] at h
      by_cases ha : a = '_'
      · simp [ha] at h
      · rw [if_neg ha] at h
        simp at h
        simp [h]
    · rw [if_neg hr] at h
      rcases List.mem_cons.mp h with h' | h'
      · simp [h']
      · exact List.mem_cons_of_mem a (ih h')

theorem head_dropTrailingUnd {a c : Char} {l rest : List Char}
    (h : dropTrailingUnd (a :: l) = c :: rest) : c = a := by
  unfold dropTrailingUnd at h
  by_cases hr : (dropTrailingUnd l).isEmpty
  · rw [if_pos hr] at h
    by_cases ha : a = '_'
    · simp [ha] at h
    · rw [if_neg ha] at h
      exact (List.cons.injEq _ _ _ _ ▸ h).1.symm
  · rw [if_neg hr] at h
    exact (List.cons.injEq _ _ _ _ ▸ h).1.symm

theorem head_dropWhile_false {p : Char → Bool} {l rest : List Char} {c : Char}
    (h : l.dropWhile p = c :: rest) : p c = false := by
  induction l with
  | nil => simp [List.dropWhile] at h
  | cons a l ih =>
    rw [List.dropWhile] at h
    by_cases ha : p a
    · rw [ha] at h
      exact ih (by simpa using h)
    · simp only [Bool.not_eq_true] at ha
      rw [ha] at h
      simp only [List.cons.injEq] at h
      rw [← h.1]
      exact ha

theorem dropWhile_append_chars (p : Char → Bool) (l₁ l₂ : List Char) :
    (l₁ ++ l₂).dropWhile p =
      if (l₁.dropWhile p).isEmpty then l₂.dropWhile p
      else l₁.dropWhile p ++ l₂ := by
  induction l₁ with
  | nil => simp [List.dropWhile]
  | cons a l ih =>
    by_cases ha : p a
    · simpa [List.dropWhile, ha] using ih
    · simp [List.dropWhile, ha]

theorem dropTrailingUnd_eq_reverse (l : List Char) :
    dropTrailingUnd l =
      (l.reverse.dropWhile (fun c => c = '_')).reverse := by
  induction l with
  | nil => rfl
  | cons a l ih =>
    unfold dropTrailingUnd
    rw [List.reverse_cons, dropWhile_append_chars]
    by_cases hr : (dropTrailingUnd l).isEmpty
    · rw [if_pos hr]
      have hrev : (l.reverse.dropWhile (fun c => c = '_')).isEmpty = true := by
        rw [ih] at hr
        cases hdw : l.reverse.dropWhile (fun c => c = '_') with
        | nil => rfl
        | cons x xs => rw [hdw] at hr; simp at hr
      rw [if_pos hrev]
      by_cases ha : a = '_'
      · simp [List.dropWhile, ha]
      · simp [List.dropWhile, ha]
    · rw [if_neg hr]
      have hrev : (l.reverse.dropWhile (fun c => c = '_')).isEmpty = false := by
        rw [ih] at hr
        cases hdw : l.reverse.dropWhile (fun c => c = '_') with
        | nil => rw [hdw] at hr; simp at hr
        | cons x xs => rfl
      rw [if_neg (by simp [hrev])]
      rw [List.reverse_append, ih]
      rfl

theorem stripUnd_eq_spec (l : List Char) :
    stripUnd l =
      ((l.dropWhile (fun c => c = '_')).reverse.dropWhile
        (fun c => c = '_')).reverse := by
  unfold stripUnd
  exact dropTrailingUnd_eq_reverse _

theorem generate_job_id_eq_spec (e t : String) (ht : t ≠ "") :
    generate_job_id e t = specJobId t := by
  unfold generate_job_id specJobId generateJobIdCore
  rw [if_neg ht, stripUnd_eq_spec]

/-! ## Status endpoint (api/main.py get_job_status, lines 260-303)

Only the storage branch is modelled (the in-memory jobs cache miss): the
endpoint raises 404 when storage.job_exists is false, otherwise answers from
load_job_metadata.  loadMeta supplies the metadata found on disk. -/

/-- Response of the storage branch of GET /api/jobs/{job_id}. -/
inductive StatusResp where
  | notFound : StatusResp
  | record (m : Metadata) : StatusResp

/-- The storage branch of get_job_status: 404 unless job_exists, else the
record (job_exists itself creates the prompts directory it then checks). -/
def get_job_status_disk (fs : DirFS) (loadMeta : String → Metadata)
    (jobId : String) : StatusResp :=
  if (job_exists fs jobId).2 then .record (loadMeta jobId) else .notFound


/-! ## More helper lemmas -/

theorem mem_dropWhile_chars {p : Char → Bool} {c : Char} {l : List Char}
    (h : c ∈ l.dropWhile p) : c ∈ l := by
  induction l with
  | nil => simp [List.dropWhile] at h
  | cons a l ih =>
    rw [List.dropWhile] at h
    by_cases ha : p a
    · rw [ha] at h
      exact List.mem_cons_of_mem a (ih (by simpa using h))
    · simp only [Bool.not_eq_true] at ha
      rw [ha] at h
      exact h

theorem hasKey_dictSet_ne {m : Metadata} {k k' : String} {v : Json}
    (h : k ≠ k') : hasKey (dictSet m k v) k' = hasKey m k' := by
  induction m with
  | nil => simp [dictSet, hasKey, dictGet, h]
  | cons e m ih =>
    unfold dictSet
    by_cases he : e.1 = k
    · rw [if_pos he]
      unfold hasKey dictGet
      rw [if_neg h, if_neg (he ▸ h)]
    · rw [if_neg he]
      unfold hasKey dictGet
      by_cases he' : e.1 = k'
      · rw [if_pos he', if_pos he']
      · rw [if_neg he', if_neg he']
        exact ih

theorem hasKey_dictUpdate_ne {k : String} (kwargs : List (String × Json))
    (m : Metadata) (h : ∀ kv ∈ kwargs, kv.1 ≠ k) :
    hasKey (dictUpdate m kwargs) k = hasKey m k := by
  induction kwargs generalizing m with
  | nil => rfl
  | cons kv rest ih =>
    unfold dictUpdate
    rw [ih _ (fun kv' hkv' => h kv' (List.mem_cons_of_mem kv hkv'))]
    exact hasKey_dictSet_ne (h kv (List.mem_cons_self kv rest))

theorem hasKey_update_job_status_ne {k : String} (now : String) (m : Metadata)
    (status : String) (kwargs : List (String × Json))
    (h1 : k ≠ "status") (h2 : k ≠ "updated_at")
    (h3 : ∀ kv ∈ kwargs, kv.1 ≠ k) :
    hasKey (update_job_status now m status kwargs) k = hasKey m k := by
  unfold update_job_status
  rw [hasKey_dictUpdate_ne kwargs _ h3,
    hasKey_dictSet_ne (Ne.symm h2), hasKey_dictSet_ne (Ne.symm h1)]

theorem applyUpdates_not_written {k : String} (updates : List StatusUpdate)
    (m : Metadata) (h1 : k ≠ "status") (h2 : k ≠ "updated_at")
    (h3 : ∀ u ∈ updates, ∀ kv ∈ u.kwargs, kv.1 ≠ k)
    (hm : hasKey m k = false) :
    hasKey (applyUpdates m updates) k = false := by
  induction updates generalizing m with
  | nil => exact hm
  | cons u rest ih =>
    unfold applyUpdates
    refine ih _ (fun u' hu' => h3 u' (List.mem_cons_of_mem u hu')) ?_
    rw [hasKey_update_job_status_ne u.now m u.status u.kwargs h1 h2
      (h3 u (List.mem_cons_self u rest))]
    exact hm

/-! ## Claim theorems -/

/-- Claim C5, counterexample to the claim as stated: for the empty title the
generate_job_id result is the timestamp-and-uuid identifier of the call
moment, so two calls with equal (empty) titles yield different identifiers,
and the result is not the sanitized-stripped-truncated form of the title
(which would be the empty string). -/
theorem generate_job_id_empty_title_not_deterministic :
    generate_job_id "20260101_000000_0a1b2c3d" "" ≠
      generate_job_id "20260102_123456_4e5f6a7b" "" ∧
    generate_job_id "20260101_000000_0a1b2c3d" "" ≠ specJobId "" :=
  ⟨by decide, by decide⟩

/-- Claim C5 (amended to non-empty titles): for every non-empty title,
generate_job_id is a pure deterministic function of the title - independent
of the clock/uuid entropy of the call - equal to the title with every
character that is not alphanumeric, underscore or hyphen replaced by an
underscore, stripped of leading/trailing underscores and truncated to 50
characters; and any two titles that sanitize to the same string map to the
same job id. -/
theorem generate_job_id_deterministic (e₁ e₂ t : String) (ht : t ≠ "") :
    generate_job_id e₁ t = generate_job_id e₂ t ∧
    generate_job_id e₁ t = specJobId t ∧
    (∀ t', t' ≠ "" → specJobId t = specJobId t' →
      generate_job_id e₁ t = generate_job_id e₁ t') := by
  refine ⟨?_, generate_job_id_eq_spec e₁ t ht, ?_⟩
  · rw [generate_job_id_eq_spec e₁ t ht, generate_job_id_eq_spec e₂ t ht]
  · intro t' ht' hsp
    rw [generate_job_id_eq_spec e₁ t ht, generate_job_id_eq_spec e₁ t' ht',
      hsp]

/-- Witness for generate_job_id_deterministic: the spec's own example title,
plus two distinct titles that sanitize identically and collide. -/
theorem generate_job_id_deterministic_witness :
    generate_job_id "a" "Iran Protests Update" =
      generate_job_id "b" "Iran Protests Update" ∧
    generate_job_id "a" "x y" = generate_job_id "a" "x!y" :=
  ⟨(generate_job_id_deterministic "a" "b" "Iran Protests Update"
      (by decide)).1,
   (generate_job_id_deterministic "a" "a" "x y" (by decide)).2.2 "x!y"
      (by decide) (by decide)⟩

/-- The title of the claim C10 counterexample: an alphanumeric character,
then 49 underscores, then another alphanumeric character.  Stripping removes
nothing (both ends are alphanumeric); truncation to 50 then cuts inside the
underscore run, leaving a trailing underscore. -/
def trailingUndTitle : String :=
  String.mk ('a' :: (List.replicate 49 '_' ++ ['b']))

set_option maxRecDepth 10000 in
/-- Claim C10, counterexample to the no-trailing-underscore part: for the
title a_..._b (49 underscores), the job id has length 50 and ends in an
underscore. -/
theorem generate_job_id_trailing_underscore :
    (generate_job_id "e" trailingUndTitle).toList.getLast? = some '_' ∧
    (generate_job_id "e" trailingUndTitle).length = 50 :=
  ⟨by decide, by decide⟩

/-- Claim C10 (amended): for every non-empty title the identifier consists
only of alphanumerics, underscores and hyphens, has length at most 50, and
has no leading underscore (a trailing underscore is possible when the
truncation cuts an interior underscore run); a title with no alphanumeric,
underscore or hyphen character, such as three exclamation marks, yields the
empty identifier, whose job directory is the shared jobs root. -/
theorem generate_job_id_charset (e t : String) (ht : t ≠ "") :
    (∀ c ∈ (generate_job_id e t).toList,
      c.isAlphanum = true ∨ c = '_' ∨ c = '-') ∧
    (generate_job_id e t).length ≤ 50 ∧
    (∀ c rest, (generate_job_id e t).toList = c :: rest → c ≠ '_') ∧
    generate_job_id e "!!!" = "" ∧
    (∀ fs, (get_job_dir fs (generate_job_id e "!!!") none).2 = jobsRoot) := by
  have hl : (generate_job_id e t).toList = generateJobIdCore t.toList := by
    unfold generate_job_id
    rw [if_neg ht]
    rfl
  have hex : generate_job_id e "!!!" = "" := by
    unfold generate_job_id
    rw [if_neg (by decide)]
    decide
  refine ⟨?_, ?_, ?_, hex, ?_⟩
  · intro c hc
    rw [hl] at hc
    unfold generateJobIdCore stripUnd at hc
    have hc2 := mem_dropTrailingUnd (List.take_subset 50 _ hc)
    have hc3 := mem_dropWhile_chars hc2
    rcases List.mem_map.mp hc3 with ⟨d, _, hd⟩
    rw [← hd]
    exact sanitizeChar_allowed d
  · have : (generate_job_id e t).length =
        (generateJobIdCore t.toList).length := by
      rw [← hl]
      rfl
    rw [this]
    unfold generateJobIdCore
    exact List.length_take_le 50 _
  · intro c rest hcr
    rw [hl] at hcr
    unfold generateJobIdCore at hcr
    rcases hL : stripUnd (t.toList.map sanitizeChar) with _ | ⟨a, L'⟩
    · rw [hL] at hcr
      simp at hcr
    · rw [hL] at hcr
      simp only [List.take_succ_cons, List.cons.injEq] at hcr
      unfold stripUnd at hL
      rcases hdw : (t.toList.map sanitizeChar).dropWhile
          (fun c => decide (c = '_')) with _ | ⟨b, M⟩
      · rw [hdw] at hL
        simp [dropTrailingUnd] at hL
      · rw [hdw] at hL
        have hab : a = b := head_dropTrailingUnd hL
        have hpb := head_dropWhile_false hdw
        rw [← hcr.1, hab]
        exact of_decide_eq_false hpb
  · intro fs
    rw [hex]
    rfl

/-- Witness for generate_job_id_charset at the spec's example title. -/
theorem generate_job_id_charset_witness :
    (generate_job_id "e" "Iran Protests Update").length ≤ 50 ∧
    generate_job_id "e" "!!!" = "" :=
  ⟨(generate_job_id_charset "e" "Iran Protests Update" (by decide)).2.1,
   (generate_job_id_charset "e" "Iran Protests Update" (by decide)).2.2.2.1⟩

/-- Claim C9: job_exists calls get_job_dir, which creates the queried
prompts directory before the existence check, so job_exists returns True
for every job id on every filesystem, and the 404 branch of the status
endpoint's storage path is unreachable: the disk branch always answers with
the loaded metadata record. -/
theorem job_exists_always_true (fs : DirFS) (loadMeta : String → Metadata)
    (jobId : String) :
    (job_exists fs jobId).2 = true ∧
    get_job_status_disk fs loadMeta jobId = .record (loadMeta jobId) := by
  have h : (job_exists fs jobId).2 = true := by
    unfold job_exists get_job_dir mkdirP
    by_cases hd : pathAppend (pathAppend jobsRoot jobId) "prompts" ∈ fs
    · simp [hd]
    · simp [hd]
  refine ⟨h, ?_⟩
  unfold get_job_status_disk
  rw [h]
  simp

/-- The claim C2 counterexample body: HTTP 200 carrying an embedded
application-level error code 400 together with a task id. -/
def c2Body : Json :=
  .obj [("code", .num 400), ("msg", .str "insufficient credits"),
        ("data", .obj [("taskId", .str "t1")])]

/-- Claim C2, counterexample to the claim as stated: a transport-successful
response whose body encodes the application-level error code 400 alongside
a data.taskId field makes create_task return the task id as a success -
only the embedded code 500 is detected. -/
theorem create_task_embedded_error_not_detected :
    encodesErrorCode c2Body ∧ create_task_body c2Body = .ok (.str "t1") :=
  ⟨⟨400, rfl, by decide⟩, rfl⟩

/-- Claim C2 (amended): create_task treats a body whose embedded code equals
500 as a hard failure - it raises and never returns a task id, whatever
task-id fields the body carries; bodies with other embedded error codes are
not detected as errors and fail only through the no-task-id check. -/
theorem create_task_code500_hard_failure (m : List (String × Json))
    (h : dictGet m "code" = some (.num 500)) :
    create_task_body (.obj m) = .error .apiError := by
  unfold create_task_body
  rw [if_pos]
  simp [h]

/-- Witness for create_task_code500_hard_failure: the documented KIE error
format, with a task id present that must nevertheless not be returned. -/
theorem create_task_code500_hard_failure_witness :
    create_task_body
        (.obj [("code", .num 500), ("msg", .str "server error"),
               ("data", .obj [("taskId", .str "t9")])]) =
      .error .apiError :=
  create_task_code500_hard_failure _ rfl

/-- Claim C6, counterexample to the claim as stated: the status-update
sequence of a pipeline run that fails (writing error) followed by a
resubmitted run of the same job that completes (writing result) leaves the
persisted record holding both result and error simultaneously, because
update_job_status merges keyword arguments into the loaded record and never
removes a key. -/
theorem status_record_both_result_and_error :
    hasKey (applyUpdates [] failThenSucceedUpdates) "result" = true ∧
    hasKey (applyUpdates [] failThenSucceedUpdates) "error" = true :=
  ⟨rfl, rfl⟩

/-- Claim C6 (amended): as long as the update sequence writes at most one of
the two terminal payload keys - in particular within any single pipeline run,
which writes result on the success path or error on the failure path but
never both - the persisted record never contains result and error at the
same time; only a failure-update followed by a success-update of a
resubmitted job (or vice versa) makes both keys appear, since
update_job_status merges kwargs and never removes keys. -/
theorem update_job_status_exclusive (m : Metadata)
    (updates : List StatusUpdate)
    (hm : hasKey m "result" = false ∧ hasKey m "error" = false)
    (hu : (∀ u ∈ updates, ∀ kv ∈ u.kwargs, kv.1 ≠ "error") ∨
          (∀ u ∈ updates, ∀ kv ∈ u.kwargs, kv.1 ≠ "result")) :
    ¬(hasKey (applyUpdates m updates) "result" = true ∧
      hasKey (applyUpdates m updates) "error" = true) := by
  rcases hu with hu | hu
  · intro hboth
    have := applyUpdates_not_written updates m (k := "error") (by decide)
      (by decide) hu hm.2
    rw [hboth.2] at this
    exact Bool.true_eq_false ▸ this
  · intro hboth
    have := applyUpdates_not_written updates m (k := "result") (by decide)
      (by decide) hu hm.1
    rw [hboth.1] at this
    exact Bool.true_eq_false ▸ this

/-- The status updates of a single full_pipeline_task run that succeeds:
pending, the five processing steps, completed with result. -/
def successOnlyUpdates : List StatusUpdate :=
  [⟨"t1", "pending", []⟩,
   ⟨"t2", "processing", [("message", .str "Generating prompts")]⟩,
   ⟨"t3", "processing", [("message", .str "Generating videos")]⟩,
   ⟨"t4", "processing", [("message", .str "Concatenating videos")]⟩,
   ⟨"t5", "processing", [("message", .str "Generating voiceover")]⟩,
   ⟨"t6", "processing", [("message", .str "Merging final video")]⟩,
   ⟨"t7", "completed",
     [("result", .obj [("final_video_path",
        .str "jobs/j/final/final.mp4")])]⟩]

/-- Witness for update_job_status_exclusive: a single successful run never
holds both terminal payload keys. -/
theorem update_job_status_exclusive_witness :
    ¬(hasKey (applyUpdates [] successOnlyUpdates) "result" = true ∧
      hasKey (applyUpdates [] successOnlyUpdates) "error" = true) :=
  update_job_status_exclusive [] successOnlyUpdates ⟨rfl, rfl⟩
    (Or.inl (by decide))

/-- The merge-stage counterexample filesystem: both shot videos exist, no
concatenated video yet. -/
def c7Fs : MFS :=
  [(save_video_path "j" 1 "s", .complete),
   (save_video_path "j" 2 "s", .complete)]

/-- Claim C7, counterexample to the claim as stated: combine_videos passes
the canonical path videos/concatenated.mp4 itself as the ffmpeg output
argument, so an invocation that fails partway leaves a partial file at the
canonical artifact path; a subsequent run's existence check then skips the
stage and returns that partial file as the completed artifact. -/
theorem concat_not_atomic :
    (combine_videos .failsHalfway "j" c7Fs).2 = .error .toolFailed ∧
    lookupFile (combine_videos .failsHalfway "j" c7Fs).1
      (concat_video_path "j") = some .truncatedFile ∧
    (combine_videos .success "j"
      (combine_videos .failsHalfway "j" c7Fs).1).2 =
        .ok (concat_video_path "j") ∧
    (combine_videos .success "j"
      (combine_videos .failsHalfway "j" c7Fs).1).1 =
        (combine_videos .failsHalfway "j" c7Fs).1 :=
  ⟨rfl, rfl, rfl, rfl⟩

/-- Claim C7 (amended): concatenate_videos and merge_audio_video hand the
canonical artifact path (videos/concatenated.mp4, final/final.mp4) directly
to the media tool as its output argument - there is no temporary path and no
publish-on-success step - so when the tool fails after partially writing its
output, the partial file sits at the canonical path. -/
theorem merge_writes_canonical_path (jobId : String) (fs g : MFS)
    (hno : pyExists fs (concat_video_path jobId) = false)
    (hvids : (list_videos_for_job fs jobId).isEmpty = false)
    (hg1 : pyExists g (final_video_path jobId) = false)
    (hg2 : pyExists g (concat_video_path jobId) = true)
    (hg3 : pyExists g (get_audio_path jobId) = true) :
    combine_videos .failsHalfway jobId fs =
      (setFile fs (concat_video_path jobId) .truncatedFile,
        .error .toolFailed) ∧
    merge_final_video .failsHalfway jobId g =
      (setFile g (final_video_path jobId) .truncatedFile,
        .error .toolFailed) := by
  constructor
  · unfold combine_videos
    rw [if_neg (by rw [hno]; exact Bool.false_ne_true),
      if_neg (by rw [hvids]; exact Bool.false_ne_true)]
    rfl
  · unfold merge_final_video
    rw [if_neg (by rw [hg1]; exact Bool.false_ne_true),
      if_neg (by rw [hg2]; simp),
      if_neg (by rw [hg3]; simp)]
    rfl

/-- Witness for merge_writes_canonical_path on concrete filesystems. -/
theorem merge_writes_canonical_path_witness :
    combine_videos .failsHalfway "j" c7Fs =
      (setFile c7Fs (concat_video_path "j") .truncatedFile,
        .error .toolFailed) ∧
    merge_final_video .failsHalfway "j"
        [(concat_video_path "j", .complete),
         (get_audio_path "j", .complete)] =
      (setFile [(concat_video_path "j", .complete),
         (get_audio_path "j", .complete)] (final_video_path "j") .truncatedFile,
        .error .toolFailed) :=
  merge_writes_canonical_path "j" c7Fs
    [(concat_video_path "j", .complete), (get_audio_path "j", .complete)]
    rfl rfl rfl rfl rfl

/-! ## Poll backoff lemmas (claim C3) -/

theorem nominalDelay_ge_two (k : ℕ) : 2 ≤ nominalDelay k := by
  induction k with
  | zero => norm_num [nominalDelay]
  | succ k ih =>
    unfold nominalDelay
    refine le_min (by norm_num) ?_
    nlinarith

theorem nominalDelay_le_cap (k : ℕ) : nominalDelay k ≤ 15 := by
  cases k with
  | zero => norm_num [nominalDelay]
  | succ k =>
    unfold nominalDelay
    exact min_le_left _ _

theorem nominalDelay_mono (k : ℕ) : nominalDelay k ≤ nominalDelay (k + 1) := by
  conv_rhs => rw [nominalDelay]
  refine le_min (nominalDelay_le_cap k) ?_
  nlinarith [nominalDelay_ge_two k]

theorem poll_timeout_aux (j : ℕ → ℚ) (hj : ∀ n, 0 ≤ j n) :
    ∀ (f k : ℕ) (elapsed : ℚ), 1200 < elapsed + 2 * (f : ℚ) →
      poll_task_stub j (f + 1) k elapsed = some .timeout := by
  intro f
  induction f with
  | zero =>
    intro k e h
    norm_num at h
    unfold poll_task_stub
    rw [if_pos h]
  | succ f ih =>
    intro k e h
    unfold poll_task_stub
    by_cases he : 1200 < e
    · rw [if_pos he]
    · rw [if_neg he]
      refine ih (k + 1) (e + sleepOf j k) ?_
      have h2 : 2 ≤ sleepOf j k := by
        unfold sleepOf
        have := nominalDelay_ge_two k
        have := hj k
        linarith
      push_cast at h ⊢
      linarith

/-- Claim C3: the nominal poll delays start at 2 s, grow by the factor 1.3
and are capped at 15 s, hence are non-decreasing and never exceed the cap;
each actual sleep is the nominal delay plus the iteration's jitter and lies
in the interval from the nominal delay up to (but excluding) nominal plus
half a second; and against a provider that never reports a terminal state
the loop exits by raising the poll timeout once cumulative elapsed time
exceeds the 20-minute (1200 s) ceiling - 602 iterations always suffice. -/
theorem poll_backoff_spec (j : ℕ → ℚ)
    (hj : ∀ n, 0 ≤ j n ∧ j n < 1 / 2) :
    (∀ k, nominalDelay k ≤ nominalDelay (k + 1) ∧ nominalDelay k ≤ 15) ∧
    (∀ k, nominalDelay k ≤ sleepOf j k ∧
      sleepOf j k < nominalDelay k + 1 / 2) ∧
    poll_task_stub j 602 0 0 = some .timeout := by
  refine ⟨fun k => ⟨nominalDelay_mono k, nominalDelay_le_cap k⟩,
    fun k => ⟨?_, ?_⟩, ?_⟩
  · unfold sleepOf
    have := (hj k).1
    linarith
  · unfold sleepOf
    have := (hj k).2
    linarith
  · refine poll_timeout_aux j (fun n => (hj n).1) 601 0 0 ?_
    norm_num

/-- Witness for poll_backoff_spec with the zero-jitter stream. -/
theorem poll_backoff_spec_witness :
    poll_task_stub (fun _ => 0) 602 0 0 = some .timeout ∧
    nominalDelay 0 ≤ nominalDelay 1 :=
  ⟨(poll_backoff_spec (fun _ => 0) (fun _ => by norm_num)).2.2,
   ((poll_backoff_spec (fun _ => 0) (fun _ => by norm_num)).1 0).1⟩

/-- Claim C8: on task details conforming to the provider wire contract
(resultUrls, when present and non-empty, is a JSON list), extract_result_url
raises exactly when data.resultJson is absent or empty or the resultUrls
list parsed from it is absent or empty, and otherwise returns the first
element of that list.  json.loads is the parameter loads, with none standing
for a parse failure. -/
theorem extract_result_url_iff (loads : String → Option Json) (detail : Json)
    (hshape : ∀ u, resultUrlsVal loads detail = some u → pyTruthy u = true →
      ∃ l, u = Json.arr l) :
    ((∃ e, extract_result_url loads detail = .error e) ↔
      (rawMissingOrEmpty detail = true ∨
       resultUrlsList loads detail = none ∨
       resultUrlsList loads detail = some [])) ∧
    (∀ u rest, rawMissingOrEmpty detail = false →
      resultUrlsList loads detail = some (u :: rest) →
      extract_result_url loads detail = .ok u) := by
  unfold extract_result_url rawMissingOrEmpty resultUrlsList resultUrlsVal
  cases hsg : safe_get detail ["data", "resultJson"] with
  | none => simp [hsg]
  | some raw =>
    cases htr : pyTruthy raw with
    | false => simp [hsg, htr]
    | true =>
      cases raw with
      | null => simp [pyTruthy] at htr
      | bool b => simp [hsg, htr]
      | num n => simp [hsg, htr]
      | arr l0 => simp [hsg, htr]
      | obj m0 => simp [hsg, htr]
      | str s =>
        have hs : ¬(s = "") := by
          intro h
          rw [h] at htr
          simp [pyTruthy] at htr
        cases hld : loads s with
        | none => simp [hsg, htr, hld, pyTruthy, hs]
        | some parsed =>
          cases parsed with
          | null => simp [hsg, htr, hld, pyTruthy, hs]
          | bool b => simp [hsg, htr, hld, pyTruthy, hs]
          | num n => simp [hsg, htr, hld, pyTruthy, hs]
          | str s2 => simp [hsg, htr, hld, pyTruthy, hs]
          | arr l0 => simp [hsg, htr, hld, pyTruthy, hs]
          | obj m =>
            cases hdg : dictGet m "resultUrls" with
            | none => simp [hsg, htr, hld, hdg, pyTruthy, hs]
            | some uval =>
              have hval : resultUrlsVal loads detail = some uval := by
                unfold resultUrlsVal
                rw [hsg]
                show (match loads s with
                  | some (.obj m) => dictGet m "resultUrls"
                  | _ => none) = some uval
                rw [hld]
                exact hdg
              cases htu : pyTruthy uval with
              | false =>
                cases uval with
                | null => simp [hsg, htr, hld, hdg, htu, pyTruthy, hs]
                | bool b => simp [pyTruthy] at htu; simp [hsg, htr, hld, hdg, htu, pyTruthy, hs]
                | num n => simp [pyTruthy] at htu; simp [hsg, htr, hld, hdg, htu, pyTruthy, hs]
                | str s2 => simp [pyTruthy] at htu; simp [hsg, htr, hld, hdg, htu, pyTruthy, hs]
                | obj m2 => simp [pyTruthy] at htu; simp [hsg, htr, hld, hdg, htu, pyTruthy, hs]
                | arr l0 =>
                  cases l0 with
                  | nil => simp [hsg, htr, hld, hdg, htu, pyTruthy, hs]
                  | cons x xs => simp [pyTruthy] at htu
              | true =>
                obtain ⟨l0, rfl⟩ := hshape uval hval htu
                cases l0 with
                | nil => simp [pyTruthy] at htu
                | cons x xs =>
                  refine ⟨?_, ?_⟩
                  · simp [hsg, htr, hld, hdg, htu, pyTruthy, hs]
                  · intro u rest hraw hlist
                    simp [hsg, hld, hdg, htu, pyTruthy, hs] at hlist
                    simp [hsg, htr, hld, hdg, htu, pyTruthy, hs, hlist.1]

/-- The concrete loads function of the claim C8 witness. -/
def demoLoads : String → Option Json := fun s =>
  if s = "RJ" then
    some (.obj [("resultUrls", .arr [.str "u1", .str "u2"])])
  else none

/-- The concrete task detail of the claim C8 witness. -/
def demoDetail : Json := .obj [("data", .obj [("resultJson", .str "RJ")])]

/-- Witness for extract_result_url_iff: a well-formed success detail whose
resultUrls list holds two URLs yields the first one. -/
theorem extract_result_url_iff_witness :
    extract_result_url demoLoads demoDetail = .ok (.str "u1") :=
  (extract_result_url_iff demoLoads demoDetail
    (fun u hu _ => by
      refine ⟨[.str "u1", .str "u2"], ?_⟩
      rw [show resultUrlsVal demoLoads demoDetail =
        some (.arr [.str "u1", .str "u2"]) from rfl] at hu
      exact (Option.some.injEq _ _ ▸ hu).symm)).2
    (.str "u1") [.str "u2"] rfl rfl

/-- Claim C1 (code bug): the skip check of generate_videos_from_prompts
computes its expected path under the job ROOT directory (get_job_dir with no
stage), while save_video stores and returns the artifact under the videos
stage subdirectory, so the two paths differ for every shot; re-invoking the
stage on a filesystem holding exactly a completed run's save_video outputs
(and the derived frame) finds none of its expected paths and submits a
remote task for every shot again - two submissions per invocation for the
two-shot job instead of the claimed zero on the second run. -/
theorem generate_videos_resume_resubmits :
    expected_skip_path "job" 1 "s" ≠ save_video_path "job" 1 "s" ∧
    runSubmitCount (gen_videos "job" demoShots [] none) = 2 ∧
    runSubmitCount
      (gen_videos "job" demoShots
        (runFS [] (gen_videos "job" demoShots [] none)) none) = 2 :=
  ⟨by decide, by decide, by decide⟩

/-! ## Frame-chain ordering (claim C4) -/

theorem gen_videos_submitImage_ge_two (jobId : String) (shots : List Shot) :
    ∀ (fs : FileFS) (prev : Option FPath) (fs' : FileFS) (tr : List VEv)
      (res : List FPath),
      gen_videos jobId shots fs prev = .ok (fs', tr, res) →
      ∀ n pr sd, VEv.evSubmitImage n pr sd ∈ tr → 2 ≤ n := by
  induction shots with
  | nil =>
    intro fs prev fs' tr res hrun n pr sd hmem
    simp only [gen_videos, Except.ok.injEq, Prod.mk.injEq] at hrun
    rw [← hrun.2.1] at hmem
    simp at hmem
  | cons shot rest ih =>
    intro fs prev fs' tr res hrun n pr sd hmem
    cases prev with
    | none =>
      simp only [gen_videos] at hrun
      by_cases hep :
          expected_skip_path jobId shot.shot_number shot.subject ∈ fs
      · rw [if_pos hep] at hrun
        cases hrec : gen_videos jobId rest fs
            (some (expected_skip_path jobId shot.shot_number
              shot.subject)) with
        | ok out =>
          obtain ⟨fs₁, tr₁, res₁⟩ := out
          rw [hrec] at hrun
          simp only [Except.ok.injEq, Prod.mk.injEq] at hrun
          rw [← hrun.2.1] at hmem
          rcases List.mem_cons.mp hmem with h | h
          · exact absurd h (by simp)
          · exact ih fs _ fs₁ tr₁ res₁ hrec n pr sd h
        | error e =>
          rw [hrec] at hrun
          exact absurd hrun (by simp)
      · rw [if_neg hep] at hrun
        cases hrec : gen_videos jobId rest
            (insertFile fs
              (save_video_path jobId shot.shot_number shot.subject))
            (some (save_video_path jobId shot.shot_number shot.subject)) with
        | ok out =>
          obtain ⟨fs₁, tr₁, res₁⟩ := out
          rw [hrec] at hrun
          simp only [Except.ok.injEq, Prod.mk.injEq] at hrun
          rw [← hrun.2.1] at hmem
          rcases List.mem_cons.mp hmem with h | h
          · exact absurd h (by simp)
          · rcases List.mem_cons.mp h with h' | h'
            · exact absurd h' (by simp)
            · exact ih _ _ fs₁ tr₁ res₁ hrec n pr sd h'
        | error e =>
          rw [hrec] at hrun
          exact absurd hrun (by simp)
    | some p =>
      simp only [gen_videos] at hrun
      by_cases hep :
          expected_skip_path jobId shot.shot_number shot.subject ∈ fs
      · rw [if_pos hep] at hrun
        cases hrec : gen_videos jobId rest fs
            (some (expected_skip_path jobId shot.shot_number
              shot.subject)) with
        | ok out =>
          obtain ⟨fs₁, tr₁, res₁⟩ := out
          rw [hrec] at hrun
          simp only [Except.ok.injEq, Prod.mk.injEq] at hrun
          rw [← hrun.2.1] at hmem
          rcases List.mem_cons.mp hmem with h | h
          · exact absurd h (by simp)
          · exact ih fs _ fs₁ tr₁ res₁ hrec n pr sd h
        | error e =>
          rw [hrec] at hrun
          exact absurd hrun (by simp)
      · rw [if_neg hep] at hrun
        by_cases hn : 1 < shot.shot_number
        · rw [if_pos hn] at hrun
          by_cases hpf : p ∈ fs
          · rw [if_pos hpf] at hrun
            cases hrec : gen_videos jobId rest
                (insertFile
                  (insertFile fs (frame_path jobId (shot.shot_number - 1)))
                  (save_video_path jobId shot.shot_number shot.subject))
                (some (save_video_path jobId shot.shot_number
                  shot.subject)) with
            | ok out =>
              obtain ⟨fs₁, tr₁, res₁⟩ := out
              rw [hrec] at hrun
              simp only [Except.ok.injEq, Prod.mk.injEq] at hrun
              rw [← hrun.2.1] at hmem
              rcases List.mem_cons.mp hmem with h | h
              · exact absurd h (by simp)
              · rcases List.mem_cons.mp h with h' | h'
                · have hns : n = shot.shot_number := by
                    cases h'
                    rfl
                  omega
                · rcases List.mem_cons.mp h' with h'' | h''
                  · exact absurd h'' (by simp)
                  · exact ih _ _ fs₁ tr₁ res₁ hrec n pr sd h''
            | error e =>
              rw [hrec] at hrun
              exact absurd hrun (by simp)
          · rw [if_neg hpf] at hrun
            exact absurd hrun (by simp)
        · rw [if_neg hn] at hrun
          cases hrec : gen_videos jobId rest
              (insertFile fs
                (save_video_path jobId shot.shot_number shot.subject))
              (some (save_video_path jobId shot.shot_number shot.subject)) with
          | ok out =>
            obtain ⟨fs₁, tr₁, res₁⟩ := out
            rw [hrec] at hrun
            simp only [Except.ok.injEq, Prod.mk.injEq] at hrun
            rw [← hrun.2.1] at hmem
            rcases List.mem_cons.mp hmem with h | h
            · exact absurd h (by simp)
            · rcases List.mem_cons.mp h with h' | h'
              · exact absurd h' (by simp)
              · exact ih _ _ fs₁ tr₁ res₁ hrec n pr sd h'
          | error e =>
            rw [hrec] at hrun
            exact absurd hrun (by simp)

theorem gen_videos_submitText_eq_one (jobId : String) (shots : List Shot) :
    ∀ (k : ℕ) (fs : FileFS) (prev : Option FPath) (fs' : FileFS)
      (tr : List VEv) (res : List FPath),
      (∀ i s, shots[i]? = some s → s.shot_number = k + i + 1) →
      (prev = none → k = 0) →
      gen_videos jobId shots fs prev = .ok (fs', tr, res) →
      ∀ n pr, VEv.evSubmitText n pr ∈ tr → n = 1 := by
  induction shots with
  | nil =>
    intro k fs prev fs' tr res hstd hprev hrun n pr hmem
    simp only [gen_videos, Except.ok.injEq, Prod.mk.injEq] at hrun
    rw [← hrun.2.1] at hmem
    simp at hmem
  | cons shot rest ih =>
    intro k fs prev fs' tr res hstd hprev hrun n pr hmem
    have hshot : shot.shot_number = k + 1 := by
      have h0 := hstd 0 shot (by simp)
      omega
    have hstd' : ∀ i s, rest[i]? = some s →
        s.shot_number = (k + 1) + i + 1 := by
      intro i s hi
      have := hstd (i + 1) s (by simpa using hi)
      omega
    cases prev with
    | none =>
      have hk : k = 0 := hprev rfl
      simp only [gen_videos] at hrun
      by_cases hep :
          expected_skip_path jobId shot.shot_number shot.subject ∈ fs
      · rw [if_pos hep] at hrun
        cases hrec : gen_videos jobId rest fs
            (some (expected_skip_path jobId shot.shot_number
              shot.subject)) with
        | ok out =>
          obtain ⟨fs₁, tr₁, res₁⟩ := out
          rw [hrec] at hrun
          simp only [Except.ok.injEq, Prod.mk.injEq] at hrun
          rw [← hrun.2.1] at hmem
          rcases List.mem_cons.mp hmem with h | h
          · exact absurd h (by simp)
          · exact ih (k + 1) fs _ fs₁ tr₁ res₁ hstd'
              (fun h => Option.noConfusion h) hrec n pr h
        | error e =>
          rw [hrec] at hrun
          exact absurd hrun (by simp)
      · rw [if_neg hep] at hrun
        cases hrec : gen_videos jobId rest
            (insertFile fs
              (save_video_path jobId shot.shot_number shot.subject))
            (some (save_video_path jobId shot.shot_number shot.subject)) with
        | ok out =>
          obtain ⟨fs₁, tr₁, res₁⟩ := out
          rw [hrec] at hrun
          simp only [Except.ok.injEq, Prod.mk.injEq] at hrun
          rw [← hrun.2.1] at hmem
          rcases List.mem_cons.mp hmem with h | h
          · injection h with hn hpr
            omega
          · rcases List.mem_cons.mp h with h' | h'
            · exact absurd h' (by simp)
            · exact ih (k + 1) _ _ fs₁ tr₁ res₁ hstd'
                (fun h => Option.noConfusion h) hrec n pr h'
        | error e =>
          rw [hrec] at hrun
          exact absurd hrun (by simp)
    | some p =>
      simp only [gen_videos] at hrun
      by_cases hep :
          expected_skip_path jobId shot.shot_number shot.subject ∈ fs
      · rw [if_pos hep] at hrun
        cases hrec : gen_videos jobId rest fs
            (some (expected_skip_path jobId shot.shot_number
              shot.subject)) with
        | ok out =>
          obtain ⟨fs₁, tr₁, res₁⟩ := out
          rw [hrec] at hrun
          simp only [Except.ok.injEq, Prod.mk.injEq] at hrun
          rw [← hrun.2.1] at hmem
          rcases List.mem_cons.mp hmem with h | h
          · exact absurd h (by simp)
          · exact ih (k + 1) fs _ fs₁ tr₁ res₁ hstd'
              (fun h => Option.noConfusion h) hrec n pr h
        | error e =>
          rw [hrec] at hrun
          exact absurd hrun (by simp)
      · rw [if_neg hep] at hrun
        by_cases hn1 : 1 < shot.shot_number
        · rw [if_pos hn1] at hrun
          by_cases hpf : p ∈ fs
          · rw [if_pos hpf] at hrun
            cases hrec : gen_videos jobId rest
                (insertFile
                  (insertFile fs (frame_path jobId (shot.shot_number - 1)))
                  (save_video_path jobId shot.shot_number shot.subject))
                (some (save_video_path jobId shot.shot_number
                  shot.subject)) with
            | ok out =>
              obtain ⟨fs₁, tr₁, res₁⟩ := out
              rw [hrec] at hrun
              simp only [Except.ok.injEq, Prod.mk.injEq] at hrun
              rw [← hrun.2.1] at hmem
              rcases List.mem_cons.mp hmem with h | h
              · exact absurd h (by simp)
              · rcases List.mem_cons.mp h with h' | h'
                · exact absurd h' (by simp)
                · rcases List.mem_cons.mp h' with h'' | h''
                  · exact absurd h'' (by simp)
                  · exact ih (k + 1) _ _ fs₁ tr₁ res₁ hstd'
                      (fun h => Option.noConfusion h) hrec n pr h''
            | error e =>
              rw [hrec] at hrun
              exact absurd hrun (by simp)
          · rw [if_neg hpf] at hrun
            exact absurd hrun (by simp)
        · rw [if_neg hn1] at hrun
          cases hrec : gen_videos jobId rest
              (insertFile fs
                (save_video_path jobId shot.shot_number shot.subject))
              (some (save_video_path jobId shot.shot_number shot.subject)) with
          | ok out =>
            obtain ⟨fs₁, tr₁, res₁⟩ := out
            rw [hrec] at hrun
            simp only [Except.ok.injEq, Prod.mk.injEq] at hrun
            rw [← hrun.2.1] at hmem
            rcases List.mem_cons.mp hmem with h | h
            · injection h with hn hpr
              omega
            · rcases List.mem_cons.mp h with h' | h'
              · exact absurd h' (by simp)
              · exact ih (k + 1) _ _ fs₁ tr₁ res₁ hstd'
                  (fun h => Option.noConfusion h) hrec n pr h'
          | error e =>
            rw [hrec] at hrun
            exact absurd hrun (by simp)

/-- The frame-chain split property of a trace: every image-to-video
submission for shot n is seeded with shot (n-1)'s last-frame path, and is
preceded in the trace by the extraction of that frame from a source that was
itself completed earlier in the trace (skipped or saved), or - during an
induction over a loop suffix - was the previous_video_path the suffix
started from (shot k, when the suffix starts at position k). -/
def GoodSplit (jobId : String) (k : ℕ) (prev : Option FPath)
    (tr : List VEv) : Prop :=
  ∀ n pr sd pre post, tr = pre ++ VEv.evSubmitImage n pr sd :: post →
    sd = frame_path jobId (n - 1) ∧
    ∃ src, VEv.evExtract src sd ∈ pre ∧
      (VEv.evSkip (n - 1) src ∈ pre ∨ VEv.evSave (n - 1) src ∈ pre ∨
        (prev = some src ∧ n = k + 1))

theorem gen_videos_goodsplit (jobId : String) (shots : List Shot) :
    ∀ (k : ℕ) (fs : FileFS) (prev : Option FPath) (fs' : FileFS)
      (tr : List VEv) (res : List FPath),
      (∀ i s, shots[i]? = some s → s.shot_number = k + i + 1) →
      gen_videos jobId shots fs prev = .ok (fs', tr, res) →
      GoodSplit jobId k prev tr := by
  induction shots with
  | nil =>
    intro k fs prev fs' tr res hstd hrun
    simp only [gen_videos, Except.ok.injEq, Prod.mk.injEq] at hrun
    intro n pr sd pre post heq
    rw [← hrun.2.1] at heq
    exact absurd heq (by simp)
  | cons shot rest ih =>
    intro k fs prev fs' tr res hstd hrun
    have hshot : shot.shot_number = k + 1 := by
      have h0 := hstd 0 shot (by simp)
      omega
    have hstd' : ∀ i s, rest[i]? = some s →
        s.shot_number = (k + 1) + i + 1 := by
      intro i s hi
      have := hstd (i + 1) s (by simpa using hi)
      omega
    cases prev with
    | none =>
      simp only [gen_videos] at hrun
      by_cases hep :
          expected_skip_path jobId shot.shot_number shot.subject ∈ fs
      · rw [if_pos hep] at hrun
        cases hrec : gen_videos jobId rest fs
            (some (expected_skip_path jobId shot.shot_number
              shot.subject)) with
        | ok out =>
          obtain ⟨fs₁, tr₁, res₁⟩ := out
          rw [hrec] at hrun
          simp only [Except.ok.injEq, Prod.mk.injEq] at hrun
          have hGS := ih (k + 1) fs _ fs₁ tr₁ res₁ hstd' hrec
          intro n pr sd pre post heq
          rw [← hrun.2.1] at heq
          cases pre with
          | nil => simp at heq
          | cons a pre' =>
            simp only [List.cons_append, List.cons.injEq] at heq
            obtain ⟨ha, heq'⟩ := heq
            obtain ⟨hsd, src, hex, hdisj⟩ := hGS n pr sd pre' post heq'
            refine ⟨hsd, src, List.mem_cons_of_mem a hex, ?_⟩
            rcases hdisj with h | h | ⟨hpq, hn⟩
            · exact Or.inl (List.mem_cons_of_mem a h)
            · exact Or.inr (Or.inl (List.mem_cons_of_mem a h))
            · injection hpq with hsrc
              refine Or.inl ?_
              rw [← ha, hn, ← hsrc, hshot]
              exact List.mem_cons_self _ _
        | error e =>
          rw [hrec] at hrun
          exact absurd hrun (by simp)
      · rw [if_neg hep] at hrun
        cases hrec : gen_videos jobId rest
            (insertFile fs
              (save_video_path jobId shot.shot_number shot.subject))
            (some (save_video_path jobId shot.shot_number shot.subject)) with
        | ok out =>
          obtain ⟨fs₁, tr₁, res₁⟩ := out
          rw [hrec] at hrun
          simp only [Except.ok.injEq, Prod.mk.injEq] at hrun
          have hGS := ih (k + 1) _ _ fs₁ tr₁ res₁ hstd' hrec
          intro n pr sd pre post heq
          rw [← hrun.2.1] at heq
          cases pre with
          | nil => simp at heq
          | cons a pre' =>
            simp only [List.cons_append, List.cons.injEq] at heq
            obtain ⟨ha, heq₀⟩ := heq
            cases pre' with
            | nil => simp at heq₀
            | cons b pre'' =>
              simp only [List.cons_append, List.cons.injEq] at heq₀
              obtain ⟨hb, heq'⟩ := heq₀
              obtain ⟨hsd, src, hex, hdisj⟩ := hGS n pr sd pre'' post heq'
              refine ⟨hsd, src,
                List.mem_cons_of_mem a (List.mem_cons_of_mem b hex), ?_⟩
              rcases hdisj with h | h | ⟨hpq, hn⟩
              · exact Or.inl
                  (List.mem_cons_of_mem a (List.mem_cons_of_mem b h))
              · exact Or.inr (Or.inl
                  (List.mem_cons_of_mem a (List.mem_cons_of_mem b h)))
              · injection hpq with hsrc
                refine Or.inr (Or.inl ?_)
                rw [hn, ← hsrc]
                refine List.mem_cons_of_mem a ?_
                rw [← hb, hshot]
                exact List.mem_cons_self _ _
        | error e =>
          rw [hrec] at hrun
          exact absurd hrun (by simp)
    | some p =>
      simp only [gen_videos] at hrun
      by_cases hep :
          expected_skip_path jobId shot.shot_number shot.subject ∈ fs
      · rw [if_pos hep] at hrun
        cases hrec : gen_videos jobId rest fs
            (some (expected_skip_path jobId shot.shot_number
              shot.subject)) with
        | ok out =>
          obtain ⟨fs₁, tr₁, res₁⟩ := out
          rw [hrec] at hrun
          simp only [Except.ok.injEq, Prod.mk.injEq] at hrun
          have hGS := ih (k + 1) fs _ fs₁ tr₁ res₁ hstd' hrec
          intro n pr sd pre post heq
          rw [← hrun.2.1] at heq
          cases pre with
          | nil => simp at heq
          | cons a pre' =>
            simp only [List.cons_append, List.cons.injEq] at heq
            obtain ⟨ha, heq'⟩ := heq
            obtain ⟨hsd, src, hex, hdisj⟩ := hGS n pr sd pre' post heq'
            refine ⟨hsd, src, List.mem_cons_of_mem a hex, ?_⟩
            rcases hdisj with h | h | ⟨hpq, hn⟩
            · exact Or.inl (List.mem_cons_of_mem a h)
            · exact Or.inr (Or.inl (List.mem_cons_of_mem a h))
            · injection hpq with hsrc
              refine Or.inl ?_
              rw [← ha, hn, ← hsrc, hshot]
              exact List.mem_cons_self _ _
        | error e =>
          rw [hrec] at hrun
          exact absurd hrun (by simp)
      · rw [if_neg hep] at hrun
        by_cases hn1 : 1 < shot.shot_number
        · rw [if_pos hn1] at hrun
          by_cases hpf : p ∈ fs
          · rw [if_pos hpf] at hrun
            cases hrec : gen_videos jobId rest
                (insertFile
                  (insertFile fs (frame_path jobId (shot.shot_number - 1)))
                  (save_video_path jobId shot.shot_number shot.subject))
                (some (save_video_path jobId shot.shot_number
                  shot.subject)) with
            | ok out =>
              obtain ⟨fs₁, tr₁, res₁⟩ := out
              rw [hrec] at hrun
              simp only [Except.ok.injEq, Prod.mk.injEq] at hrun
              have hGS := ih (k + 1) _ _ fs₁ tr₁ res₁ hstd' hrec
              intro n pr sd pre post heq
              rw [← hrun.2.1] at heq
              cases pre with
              | nil =>
                simp only [List.nil_append, List.cons.injEq] at heq
                exact absurd heq.1 (by simp)
              | cons a pre' =>
                simp only [List.cons_append, List.cons.injEq] at heq
                obtain ⟨ha, heq₀⟩ := heq
                cases pre' with
                | nil =>
                  simp only [List.nil_append, List.cons.injEq] at heq₀
                  obtain ⟨hsub, -⟩ := heq₀
                  injection hsub with hn' hpr' hsd'
                  refine ⟨by rw [← hsd', ← hn'], p, ?_, ?_⟩
                  · rw [← hsd', ← ha]
                    exact List.mem_cons_self _ _
                  · exact Or.inr (Or.inr ⟨rfl, by omega⟩)
                | cons b pre'' =>
                  simp only [List.cons_append, List.cons.injEq] at heq₀
                  obtain ⟨hb, heq₁⟩ := heq₀
                  cases pre'' with
                  | nil => simp at heq₁
                  | cons c pre''' =>
                    simp only [List.cons_append, List.cons.injEq] at heq₁
                    obtain ⟨hc, heq'⟩ := heq₁
                    obtain ⟨hsd, src, hex, hdisj⟩ :=
                      hGS n pr sd pre''' post heq'
                    refine ⟨hsd, src,
                      List.mem_cons_of_mem a (List.mem_cons_of_mem b
                        (List.mem_cons_of_mem c hex)), ?_⟩
                    rcases hdisj with h | h | ⟨hpq, hn⟩
                    · exact Or.inl (List.mem_cons_of_mem a
                        (List.mem_cons_of_mem b (List.mem_cons_of_mem c h)))
                    · exact Or.inr (Or.inl (List.mem_cons_of_mem a
                        (List.mem_cons_of_mem b (List.mem_cons_of_mem c h))))
                    · injection hpq with hsrc
                      refine Or.inr (Or.inl ?_)
                      rw [hn, ← hsrc]
                      refine List.mem_cons_of_mem a
                        (List.mem_cons_of_mem b ?_)
                      rw [← hc, hshot]
                      exact List.mem_cons_self _ _
            | error e =>
              rw [hrec] at hrun
              exact absurd hrun (by simp)
          · rw [if_neg hpf] at hrun
            exact absurd hrun (by simp)
        · rw [if_neg hn1] at hrun
          cases hrec : gen_videos jobId rest
              (insertFile fs
                (save_video_path jobId shot.shot_number shot.subject))
              (some (save_video_path jobId shot.shot_number shot.subject)) with
          | ok out =>
            obtain ⟨fs₁, tr₁, res₁⟩ := out
            rw [hrec] at hrun
            simp only [Except.ok.injEq, Prod.mk.injEq] at hrun
            have hGS := ih (k + 1) _ _ fs₁ tr₁ res₁ hstd' hrec
            intro n pr sd pre post heq
            rw [← hrun.2.1] at heq
            cases pre with
            | nil => simp at heq
            | cons a pre' =>
              simp only [List.cons_append, List.cons.injEq] at heq
              obtain ⟨ha, heq₀⟩ := heq
              cases pre' with
              | nil => simp at heq₀
              | cons b pre'' =>
                simp only [List.cons_append, List.cons.injEq] at heq₀
                obtain ⟨hb, heq'⟩ := heq₀
                obtain ⟨hsd, src, hex, hdisj⟩ := hGS n pr sd pre'' post heq'
                refine ⟨hsd, src,
                  List.mem_cons_of_mem a (List.mem_cons_of_mem b hex), ?_⟩
                rcases hdisj with h | h | ⟨hpq, hn⟩
                · exact Or.inl
                    (List.mem_cons_of_mem a (List.mem_cons_of_mem b h))
                · exact Or.inr (Or.inl
                    (List.mem_cons_of_mem a (List.mem_cons_of_mem b h)))
                · injection hpq with hsrc
                  refine Or.inr (Or.inl ?_)
                  rw [hn, ← hsrc]
                  refine List.mem_cons_of_mem a ?_
                  rw [← hb, hshot]
                  exact List.mem_cons_self _ _
          | error e =>
            rw [hrec] at hrun
            exact absurd hrun (by simp)

/-- Claim C4: in generate_videos_from_prompts over a standard prompts list
(the shot at position i carries shot_number i+1), shot 1 is never submitted
image-to-video - its generation, when it happens, is text-seeded - and a
text-to-video submission occurs only for shot 1, so every generation request
for a shot n > 1 is image-to-video; every such image-to-video submission is
seeded with the frame file of shot n-1 and occurs strictly after both the
extraction of that frame and the completion event (skip of an existing
artifact, or save) of shot n-1's video, from whose artifact the frame was
extracted. -/
theorem frame_chain_ordering (jobId : String) (shots : List Shot)
    (fs0 : FileFS)
    (hstd : ∀ i s, shots[i]? = some s → s.shot_number = i + 1)
    (fs' : FileFS) (tr : List VEv) (res : List FPath)
    (hrun : gen_videos jobId shots fs0 none = .ok (fs', tr, res)) :
    (∀ pr sd, VEv.evSubmitImage 1 pr sd ∉ tr) ∧
    (∀ n pr, VEv.evSubmitText n pr ∈ tr → n = 1) ∧
    (∀ n pr sd pre post, tr = pre ++ VEv.evSubmitImage n pr sd :: post →
      sd = frame_path jobId (n - 1) ∧
      ∃ src, VEv.evExtract src sd ∈ pre ∧
        (VEv.evSkip (n - 1) src ∈ pre ∨ VEv.evSave (n - 1) src ∈ pre)) := by
  refine ⟨?_, ?_, ?_⟩
  · intro pr sd hmem
    have h2 := gen_videos_submitImage_ge_two jobId shots fs0 none fs' tr res
      hrun 1 pr sd hmem
    omega
  · intro n pr hmem
    exact gen_videos_submitText_eq_one jobId shots 0 fs0 none fs' tr res
      (by
        intro i s hi
        have := hstd i s hi
        omega) (fun _ => rfl) hrun n pr hmem
  · intro n pr sd pre post heq
    have hg := gen_videos_goodsplit jobId shots 0 fs0 none fs' tr res
      (by
        intro i s hi
        have := hstd i s hi
        omega) hrun
    obtain ⟨hsd, src, hex, hdisj⟩ := hg n pr sd pre post heq
    refine ⟨hsd, src, hex, ?_⟩
    rcases hdisj with h | h | ⟨hc, -⟩
    · exact Or.inl h
    · exact Or.inr h
    · exact absurd hc (by simp)

/-- The trace of the fresh two-shot demonstration run. -/
def demoTrace : List VEv :=
  [.evSubmitText 1 "p1", .evSave 1 (save_video_path "job" 1 "s"),
   .evExtract (save_video_path "job" 1 "s") (frame_path "job" 1),
   .evSubmitImage 2 "p2" (frame_path "job" 1),
   .evSave 2 (save_video_path "job" 2 "s")]

/-- The filesystem after the fresh two-shot demonstration run. -/
def demoFS2 : FileFS :=
  [save_video_path "job" 2 "s", frame_path "job" 1,
   save_video_path "job" 1 "s"]

/-- The per-shot results of the fresh two-shot demonstration run. -/
def demoRes : List FPath :=
  [save_video_path "job" 1 "s", save_video_path "job" 2 "s"]

/-- Witness for frame_chain_ordering on the concrete two-shot run. -/
theorem frame_chain_ordering_witness :
    gen_videos "job" demoShots [] none = .ok (demoFS2, demoTrace, demoRes) ∧
    VEv.evSubmitImage 1 "p2" (frame_path "job" 1) ∉ demoTrace ∧
    VEv.evSubmitText 2 "p2" ∉ demoTrace := by
  have h := frame_chain_ordering "job" demoShots []
    (by
      intro i s hi
      rcases i with _ | _ | i
      · simp [demoShots] at hi
        rw [← hi]
      · simp [demoShots] at hi
        rw [← hi]
      · simp [demoShots] at hi)
    demoFS2 demoTrace demoRes rfl
  exact ⟨rfl, h.1 "p2" (frame_path "job" 1),
    fun hm => absurd (h.2.1 2 "p2" hm) (by decide)⟩
